import Mathlib

set_option autoImplicit false

/-!
Verification of the Bakery template composition and generation pipeline.

The TypeScript sources are embedded shallowly: the JavaScript `Map` used by
the compositor becomes an association list with in-place update semantics,
filesystem-dependent inputs (template catalog discovery, directory rendering)
become explicit parameters, and each pipeline function becomes a pure Lean
function mirroring the control flow of its source.
-/

namespace Bakery

/-- An in-memory file map, modelling a JavaScript `Map<string, string>` as an
association list in insertion order.  A `Map` never holds two entries with
the same key, and every map built below starts empty and grows only through
`mapSet`, which preserves that invariant. -/
abbrev FileMap := List (String × String)

/-- `Map.get`: the value at the entry whose key equals `k`, if any. -/
def mapGet (m : FileMap) (k : String) : Option String :=
  match m with
  | [] => none
  | (k', v) :: tl => if k' = k then some v else mapGet tl k

/-- `Map.set`: replace the value of the entry holding the key in place when it
is present, otherwise append a fresh entry at the end, exactly as a
JavaScript `Map` behaves. -/
def mapSet (m : FileMap) (k v : String) : FileMap :=
  match m with
  | [] => [(k, v)]
  | (k', v') :: tl => if k' = k then (k, v) :: tl else (k', v') :: mapSet tl k v

@[simp] theorem mapGet_nil (k : String) : mapGet [] k = none := rfl

theorem mapGet_mapSet_self (m : FileMap) (k v : String) :
    mapGet (mapSet m k v) k = some v := by
  induction m with
  | nil => simp [mapGet, mapSet]
  | cons kv tl ih =>
    obtain ⟨k', v'⟩ := kv
    by_cases hk : k' = k
    · simp [mapGet, mapSet, hk]
    · simp [mapGet, mapSet, hk, ih]

theorem mapGet_mapSet_ne (m : FileMap) (k v k' : String) (h : k' ≠ k) :
    mapGet (mapSet m k v) k' = mapGet m k' := by
  induction m with
  | nil => simp [mapGet, mapSet, Ne.symm h]
  | cons kv tl ih =>
    obtain ⟨k₀, v₀⟩ := kv
    by_cases hk : k₀ = k
    · subst hk
      simp [mapGet, mapSet, Ne.symm h]
    · simp [mapGet, mapSet, hk, ih]

/-- A post-setup task as declared in a descriptor's `tasks` array (spec §6;
the shape also appears as the `SetupTask` interface consumed by the generated
`.bakery/setup.ts` script). -/
structure SetupTask where
  name : String
  description : String
  command : String
  condition : String
  continueOnError : Bool
deriving DecidableEq

/-- A loaded template bundle: the validated descriptor fields that the
resolver and generator consult, bound to its source directory
(`LoadedTemplate` in the templates loader). -/
structure LoadedTemplate where
  name : String
  dependencies : List String
  tasks : List SetupTask
  path : String
deriving DecidableEq

/-- The command descriptor of a `baseCommand` archetype (`baseCommand` field
of `ArchetypeManifestSchema`). -/
structure BaseCommand where
  command : String
  workdir : String
deriving DecidableEq

/-- Post-processing configuration (`PostProcessSchema`). -/
structure PostProcess where
  remove : List String
  removeDeps : List String
  addDeps : List (String × String)
  addDevDeps : List (String × String)
  updateScripts : List (String × String)
deriving DecidableEq

/-- The manifest fields of the archetype directory that the generator reads
directly via `loadTemplateManifest(archetypePath)`. -/
structure ArchDirManifest where
  baseCommand : Option BaseCommand
  postProcess : Option PostProcess
deriving DecidableEq

/-- The filesystem-backed template catalog, made explicit.  Each field
captures one of the impure lookups of the loader/engine:
`core` is `loadCoreTemplate()`, `archetypes` is `discoverArchetypes()`,
`depLookup d` is `existsSync(join(templatesDir, d))` followed by
`loadTemplateManifest` (`none` for a missing directory or unloadable
manifest), `addons` is `discoverAddons()`, `render p` is
`processTemplateDirectory(p, context)` at the fixed render context (a
JavaScript `Map`, hence a key-unique association list),
`archDirManifest a` is `loadTemplateManifest(join(templatesDir, a))`, and
`overlaysAt a` is `existsSync(join(templatesDir, a, 'overlays'))`. -/
structure Catalog where
  core : Option LoadedTemplate
  archetypes : List LoadedTemplate
  depLookup : String → Option LoadedTemplate
  addons : List LoadedTemplate
  render : String → List (String × String)
  archDirManifest : String → Option ArchDirManifest
  overlaysAt : String → Bool

/-- `resolveTemplates(archetypeName, selectedAddons)` from the templates
loader: push core (marking `'core'` seen), then the found archetype's
not-yet-seen resolvable dependencies in order, then the archetype itself,
then each found addon in caller order.  The accumulator pairs the bundle
list with the `seen` set (insertion-ordered, as a list). -/
def resolveTemplates (cat : Catalog) (archetypeName : String)
    (selectedAddons : List String) : List LoadedTemplate :=
  let st0 : List LoadedTemplate × List String :=
    match cat.core with
    | some core => ([core], ["core"])
    | none => ([], [])
  let st1 : List LoadedTemplate × List String :=
    match cat.archetypes.find? (fun a => a.name == archetypeName) with
    | some archetype =>
      let stDeps := archetype.dependencies.foldl
        (fun st dep =>
          if dep ∈ st.2 then st
          else
            match cat.depLookup dep with
            | some depManifest => (st.1 ++ [depManifest], st.2 ++ [dep])
            | none => st)
        st0
      (stDeps.1 ++ [archetype], stDeps.2 ++ [archetypeName])
    | none => st0
  selectedAddons.foldl
    (fun ts addonName =>
      match cat.addons.find? (fun a => a.name == addonName) with
      | some addon => ts ++ [addon]
      | none => ts)
    st1.1

/-- The bundles contributed by the always-include-core step. -/
def corePart (cat : Catalog) : List LoadedTemplate :=
  cat.core.toList

/-- The archetype bundle selected by name, if any. -/
def findArchetype (cat : Catalog) (archetypeName : String) : Option LoadedTemplate :=
  cat.archetypes.find? (fun a => a.name == archetypeName)

/-- The `seen` set as it stands when dependency resolution starts. -/
def initialSeen (cat : Catalog) : List String :=
  if cat.core.isSome then ["core"] else []

/-- Dependency resolution in isolation: walk the references in declaration
order, keeping the first occurrence of each not-yet-seen resolvable one. -/
def depsResolved (cat : Catalog) : List String → List String → List LoadedTemplate
  | [], _ => []
  | d :: ds, seen =>
    if d ∈ seen then depsResolved cat ds seen
    else
      match cat.depLookup d with
      | some m => m :: depsResolved cat ds (seen ++ [d])
      | none => depsResolved cat ds seen

/-- The bundles contributed by the archetype's dependency walk. -/
def depPart (cat : Catalog) (archetypeName : String) : List LoadedTemplate :=
  match findArchetype cat archetypeName with
  | some arch => depsResolved cat arch.dependencies (initialSeen cat)
  | none => []

/-- The archetype bundle itself, as a zero/one element list. -/
def archPart (cat : Catalog) (archetypeName : String) : List LoadedTemplate :=
  (findArchetype cat archetypeName).toList

/-- The bundles contributed by the addon loop: found addons in caller order. -/
def addonPart (cat : Catalog) (selectedAddons : List String) : List LoadedTemplate :=
  selectedAddons.filterMap (fun a => cat.addons.find? (fun t => t.name == a))

theorem depsFoldl_eq (cat : Catalog) (deps : List String)
    (ts : List LoadedTemplate) (seen : List String) :
    (deps.foldl
      (fun st dep =>
        if dep ∈ st.2 then st
        else
          match cat.depLookup dep with
          | some depManifest => (st.1 ++ [depManifest], st.2 ++ [dep])
          | none => st)
      (ts, seen)).1
    = ts ++ depsResolved cat deps seen := by
  induction deps generalizing ts seen with
  | nil => simp [depsResolved]
  | cons d ds ih =>
    by_cases hd : d ∈ seen
    · simp [depsResolved, hd, ih]
    · cases hl : cat.depLookup d with
      | some m => simp [depsResolved, hd, hl, ih]
      | none => simp [depsResolved, hd, hl, ih]

theorem addonsFoldl_eq (cat : Catalog) (sel : List String)
    (ts : List LoadedTemplate) :
    sel.foldl
      (fun ts addonName =>
        match cat.addons.find? (fun a => a.name == addonName) with
        | some addon => ts ++ [addon]
        | none => ts)
      ts
    = ts ++ addonPart cat sel := by
  induction sel generalizing ts with
  | nil => simp [addonPart]
  | cons a as ih =>
    cases h : cat.addons.find? (fun t => t.name == a) with
    | some t => simp [addonPart, h, ih]
    | none => simp [addonPart, h, ih]

theorem resolveTemplates_eq_parts (cat : Catalog) (archetypeName : String)
    (sel : List String) :
    resolveTemplates cat archetypeName sel
    = corePart cat ++ depPart cat archetypeName ++ archPart cat archetypeName
        ++ addonPart cat sel := by
  unfold resolveTemplates
  cases hc : cat.core with
  | none =>
    cases hf : cat.archetypes.find? (fun a => a.name == archetypeName) with
    | none =>
      simp [hf, addonsFoldl_eq, corePart, depPart, archPart, findArchetype, hc]
    | some arch =>
      simp only [hf, addonsFoldl_eq, depsFoldl_eq]
      simp [corePart, depPart, archPart, findArchetype, hc, hf, initialSeen]
  | some core =>
    cases hf : cat.archetypes.find? (fun a => a.name == archetypeName) with
    | none =>
      simp [hf, addonsFoldl_eq, corePart, depPart, archPart, findArchetype, hc]
    | some arch =>
      simp only [hf, addonsFoldl_eq, depsFoldl_eq]
      simp [corePart, depPart, archPart, findArchetype, hc, hf, initialSeen]

/-- The inner loop of `generateFromTemplates`: feed one rendered bundle's
entries into the accumulated file map, skipping the descriptor file. -/
def setEntries (m : FileMap) (entries : List (String × String)) : FileMap :=
  entries.foldl
    (fun acc pc => if pc.1 ≠ "template.json" then mapSet acc pc.1 pc.2 else acc)
    m

/-- The file-collection phase of `generateFromTemplates` (and of
`generateProject` in `src/wizard/generator.ts`): render every resolved
bundle in order into one `Map`, later entries overwriting earlier ones,
descriptor files excluded.  The result is exactly the file set passed to
`writeTemplates`. -/
def composeFileSet (render : String → List (String × String))
    (templates : List LoadedTemplate) : FileMap :=
  templates.foldl (fun allFiles t => setEntries allFiles (render t.path)) []

/-- The value at `p` of the last entry of `l` defining `p`, if any. -/
def lastVal : List (String × String) → String → Option String
  | [], _ => none
  | pc :: tl, p =>
    match lastVal tl p with
    | some v => some v
    | none => if pc.1 = p then some pc.2 else none

theorem setEntries_append (m : FileMap) (l₁ l₂ : List (String × String)) :
    setEntries m (l₁ ++ l₂) = setEntries (setEntries m l₁) l₂ := by
  simp [setEntries, List.foldl_append]

theorem composeFileSet_eq_setEntries_flat
    (render : String → List (String × String)) (templates : List LoadedTemplate) :
    composeFileSet render templates
      = setEntries [] ((templates.map (fun t => render t.path)).flatten) := by
  suffices h : ∀ (m : FileMap) (ts : List LoadedTemplate),
      ts.foldl (fun allFiles t => setEntries allFiles (render t.path)) m
        = setEntries m ((ts.map (fun t => render t.path)).flatten) by
    simpa [composeFileSet] using h [] templates
  intro m ts
  induction ts generalizing m with
  | nil => simp [setEntries]
  | cons t ts ih => simp [List.flatten, setEntries_append, ih]

theorem mapGet_setEntries_descriptor (m : FileMap) (l : List (String × String)) :
    mapGet (setEntries m l) "template.json" = mapGet m "template.json" := by
  induction l generalizing m with
  | nil => rfl
  | cons pc tl ih =>
    by_cases hp : pc.1 = "template.json"
    · simp [setEntries, hp] at ih ⊢
      exact ih m
    · simp only [setEntries, List.foldl_cons] at ih ⊢
      rw [if_pos hp]
      rw [ih]
      exact mapGet_mapSet_ne m pc.1 pc.2 "template.json" (fun e => hp e.symm)

theorem mapGet_setEntries (m : FileMap) (l : List (String × String))
    (p : String) (hp : p ≠ "template.json") :
    mapGet (setEntries m l) p = (lastVal l p).or (mapGet m p) := by
  induction l generalizing m with
  | nil => simp [setEntries, lastVal]
  | cons pc tl ih =>
    simp only [setEntries, List.foldl_cons] at ih ⊢
    rw [ih]
    cases hl : lastVal tl p with
    | some v => simp [lastVal, hl]
    | none =>
      simp only [lastVal, hl, Option.or]
      by_cases hpc : pc.1 = p
      · have htj : pc.1 ≠ "template.json" := hpc ▸ hp
        rw [if_pos htj, if_pos hpc, hpc]
        simp [mapGet_mapSet_self]
      · by_cases htj : pc.1 = "template.json"
        · rw [if_neg (by simpa using htj), if_neg hpc]
        · rw [if_pos htj, if_neg hpc]
          rw [mapGet_mapSet_ne m pc.1 pc.2 p (Ne.symm hpc)]

theorem mapGet_eq_none_iff (l : List (String × String)) (p : String) :
    mapGet l p = none ↔ p ∉ l.map Prod.fst := by
  induction l with
  | nil => simp
  | cons pc tl ih =>
    by_cases hpc : pc.1 = p
    · simp [mapGet, hpc]
    · simp [mapGet, hpc, ih, Ne.symm hpc]

theorem lastVal_eq_none_iff (l : List (String × String)) (p : String) :
    lastVal l p = none ↔ p ∉ l.map Prod.fst := by
  induction l with
  | nil => simp [lastVal]
  | cons pc tl ih =>
    cases hl : lastVal tl p with
    | some v =>
      simp only [lastVal, hl]
      have hmem : p ∈ tl.map Prod.fst := by
        by_contra hm
        rw [ih.mpr hm] at hl
        exact Option.noConfusion hl
      simp [hmem]
    | none =>
      simp only [lastVal, hl]
      by_cases hpc : pc.1 = p
      · simp [hpc]
      · simp [hpc, ih.mp hl, Ne.symm hpc]

theorem lastVal_append (l₁ l₂ : List (String × String)) (p : String) :
    lastVal (l₁ ++ l₂) p = (lastVal l₂ p).or (lastVal l₁ p) := by
  induction l₁ with
  | nil => cases hl : lastVal l₂ p <;> simp [lastVal, hl, Option.or]
  | cons pc tl ih =>
    simp only [List.cons_append, lastVal, List.append_eq]
    rw [ih]
    cases hl : lastVal l₂ p <;> cases hl' : lastVal tl p <;>
      simp [Option.or, hl, hl']

theorem lastVal_eq_mapGet_of_nodup (l : List (String × String)) (p : String)
    (h : (l.map Prod.fst).Nodup) :
    lastVal l p = mapGet l p := by
  induction l with
  | nil => simp [lastVal]
  | cons pc tl ih =>
    simp only [List.map_cons, List.nodup_cons] at h
    by_cases hpc : pc.1 = p
    · subst hpc
      have : lastVal tl pc.1 = none :=
        (lastVal_eq_none_iff tl pc.1).mpr h.1
      simp [lastVal, mapGet, this]
    · cases hl : lastVal tl p with
      | some v => simp [lastVal, mapGet, hl, hpc, ← ih h.2, hl]
      | none => simp [lastVal, mapGet, hl, hpc, ← ih h.2, hl]

/-- Scenario D bundle `A`: its directory renders to the single file
`x.txt` with content `1`. -/
def bundleA : LoadedTemplate := ⟨"A", [], [], "dirA"⟩

/-- Scenario D bundle `B`: its directory renders to the single file
`x.txt` with content `2`. -/
def bundleB : LoadedTemplate := ⟨"B", [], [], "dirB"⟩

/-- Scenario D renderer: the rendered outputs of the two bundles above. -/
def renderD : String → List (String × String) := fun p =>
  if p = "dirA" then [("x.txt", "1")]
  else if p = "dirB" then [("x.txt", "2")]
  else []

/-- C1: for every list of resolved bundles and every render context
(abstracted as the per-directory `render` outcome), the composed file set
maps each path `p` to the content rendered by the last bundle in resolution
order that defines `p`; the descriptor file `template.json` never appears in
the composed output; and composing `[A -> {x.txt: 1}, B -> {x.txt: 2}]`
yields `{x.txt: 2}`. -/
theorem composeFileSet_last_bundle_wins
    (render : String → List (String × String))
    (templates pre post : List LoadedTemplate) (B : LoadedTemplate)
    (p v : String)
    (hsplit : templates = pre ++ B :: post)
    (hp : p ≠ "template.json")
    (hB : ((render B.path).map Prod.fst).Nodup)
    (hv : mapGet (render B.path) p = some v)
    (hpost : ∀ b ∈ post, mapGet (render b.path) p = none) :
    mapGet (composeFileSet render templates) p = some v
    ∧ mapGet (composeFileSet render templates) "template.json" = none
    ∧ composeFileSet renderD [bundleA, bundleB] = [("x.txt", "2")] := by
  refine ⟨?_, ?_, rfl⟩
  · subst hsplit
    rw [composeFileSet_eq_setEntries_flat, mapGet_setEntries _ _ _ hp]
    have hflat : (((pre ++ B :: post).map (fun t => render t.path)).flatten)
        = (pre.map (fun t => render t.path)).flatten
          ++ (render B.path ++ (post.map (fun t => render t.path)).flatten) := by
      simp
    rw [hflat, lastVal_append, lastVal_append]
    have hpostNone :
        lastVal ((post.map (fun t => render t.path)).flatten) p = none := by
      rw [lastVal_eq_none_iff]
      intro hmem
      obtain ⟨pc, hpcmem, hpcfst⟩ := List.mem_map.mp hmem
      obtain ⟨l, hl, hpcl⟩ := List.mem_flatten.mp hpcmem
      obtain ⟨b, hb, hlb⟩ := List.mem_map.mp hl
      have hnone := (mapGet_eq_none_iff (render b.path) p).mp (hpost b hb)
      exact hnone (hpcfst ▸ List.mem_map_of_mem Prod.fst (hlb ▸ hpcl))
    rw [hpostNone, lastVal_eq_mapGet_of_nodup _ _ hB, hv]
    rfl
  · rw [composeFileSet_eq_setEntries_flat, mapGet_setEntries_descriptor]
    rfl

/-- Witness for C1 at the Scenario D inputs. -/
theorem composeFileSet_last_bundle_wins_witness :
    mapGet (composeFileSet renderD [bundleA, bundleB]) "x.txt" = some "2"
    ∧ mapGet (composeFileSet renderD [bundleA, bundleB]) "template.json" = none := by
  have h := composeFileSet_last_bundle_wins renderD [bundleA, bundleB]
    [bundleA] [] bundleB "x.txt" "2" rfl (by decide) (by decide) (by decide)
    (by intro b hb; cases hb)
  exact ⟨h.1, h.2.1⟩

/-- Example core bundle. -/
def coreT : LoadedTemplate := ⟨"core", [], [], "templates/core"⟩

/-- Example archetype bundle `cli` depending on the `base` slot. -/
def cliT : LoadedTemplate := ⟨"cli", ["base"], [], "templates/cli"⟩

/-- Example dependency bundle at slot `base`. -/
def baseT : LoadedTemplate := ⟨"base", [], [], "templates/base"⟩

/-- Example addon bundle `docker`. -/
def dockerT : LoadedTemplate := ⟨"docker", [], [], "templates/addons/docker"⟩

/-- An example catalog holding the four bundles above. -/
def exCat : Catalog where
  core := some coreT
  archetypes := [cliT]
  depLookup := fun d => if d = "base" then some baseT else none
  addons := [dockerT]
  render := fun _ => []
  archDirManifest := fun _ => none
  overlaysAt := fun _ => false

/-- C4: every resolution decomposes as core bundle, then the archetype's
not-yet-seen resolvable dependencies in declaration order, then the
archetype bundle, then the found addons in caller-supplied order; and
whenever the catalog has a core bundle, it sits at index 0. -/
theorem resolveTemplates_order (cat : Catalog) (archetypeName : String)
    (sel : List String) :
    resolveTemplates cat archetypeName sel
      = corePart cat ++ depPart cat archetypeName ++ archPart cat archetypeName
        ++ addonPart cat sel
    ∧ (∀ c, cat.core = some c →
        (resolveTemplates cat archetypeName sel).head? = some c) := by
  refine ⟨resolveTemplates_eq_parts cat archetypeName sel, ?_⟩
  intro c hc
  rw [resolveTemplates_eq_parts]
  simp [corePart, hc]

/-- Witness for C4 on the example catalog. -/
theorem resolveTemplates_order_witness :
    resolveTemplates exCat "cli" ["docker"]
      = corePart exCat ++ depPart exCat "cli" ++ archPart exCat "cli"
        ++ addonPart exCat ["docker"]
    ∧ (resolveTemplates exCat "cli" ["docker"]).head? = some coreT :=
  ⟨(resolveTemplates_order exCat "cli" ["docker"]).1,
   (resolveTemplates_order exCat "cli" ["docker"]).2 coreT rfl⟩

/-- C8: an archetype id matching no descriptor together with addon ids
matching no addon resolves to exactly the core bundle (and, the function
being total, no error is raised). -/
theorem resolveTemplates_unknown_archetype (cat : Catalog)
    (archetypeName : String) (sel : List String) (c : LoadedTemplate)
    (hcore : cat.core = some c)
    (harch : findArchetype cat archetypeName = none)
    (haddons : ∀ a ∈ sel, cat.addons.find? (fun t => t.name == a) = none) :
    resolveTemplates cat archetypeName sel = [c] := by
  rw [resolveTemplates_eq_parts]
  have h2 : depPart cat archetypeName = [] := by simp [depPart, harch]
  have h3 : archPart cat archetypeName = [] := by simp [archPart, harch]
  have h4 : addonPart cat sel = [] := List.filterMap_eq_nil_iff.mpr haddons
  simp [corePart, hcore, h2, h3, h4]

/-- Witness for C8 on the example catalog. -/
theorem resolveTemplates_unknown_archetype_witness :
    resolveTemplates exCat "nonexistent-archetype" ["nope"] = [coreT] :=
  resolveTemplates_unknown_archetype exCat "nonexistent-archetype" ["nope"]
    coreT rfl (by decide)
    (by intro a ha; simp at ha; subst ha; decide)

theorem find_name_eq (l : List LoadedTemplate) (a : String) (t : LoadedTemplate)
    (h : l.find? (fun x => x.name == a) = some t) : t.name = a := by
  have := List.find?_some h
  simpa using this

theorem addonPart_names_sublist (cat : Catalog) (sel : List String) :
    ((addonPart cat sel).map LoadedTemplate.name).Sublist sel := by
  induction sel with
  | nil => simp [addonPart]
  | cons a as ih =>
    cases h : cat.addons.find? (fun t => t.name == a) with
    | some t =>
      have ht := find_name_eq _ _ _ h
      simpa [addonPart, h, ht] using ih.cons₂ a
    | none =>
      simpa [addonPart, h] using ih.cons a

theorem depsResolved_names (cat : Catalog)
    (hdep : ∀ d m, cat.depLookup d = some m → m.name = d)
    (ds : List String) :
    ∀ seen : List String,
      (((depsResolved cat ds seen).map LoadedTemplate.name).Nodup
      ∧ ∀ x ∈ depsResolved cat ds seen, x.name ∉ seen ∧ x.name ∈ ds) := by
  induction ds with
  | nil => intro seen; simp [depsResolved]
  | cons d ds ih =>
    intro seen
    by_cases hd : d ∈ seen
    · obtain ⟨h1, h2⟩ := ih seen
      refine ⟨by simpa [depsResolved, hd] using h1, ?_⟩
      intro x hx
      rw [depsResolved] at hx
      rw [if_pos hd] at hx
      exact ⟨(h2 x hx).1, List.mem_cons_of_mem d (h2 x hx).2⟩
    · cases hl : cat.depLookup d with
      | none =>
        obtain ⟨h1, h2⟩ := ih seen
        refine ⟨by simpa [depsResolved, hd, hl] using h1, ?_⟩
        intro x hx
        rw [depsResolved] at hx
        rw [if_neg hd] at hx
        simp only [hl] at hx
        exact ⟨(h2 x hx).1, List.mem_cons_of_mem d (h2 x hx).2⟩
      | some m =>
        have hm := hdep d m hl
        obtain ⟨h1, h2⟩ := ih (seen ++ [d])
        have hstep : depsResolved cat (d :: ds) seen
            = m :: depsResolved cat ds (seen ++ [d]) := by
          rw [depsResolved, if_neg hd, hl]
        constructor
        · rw [hstep]
          simp only [List.map_cons, List.nodup_cons]
          refine ⟨?_, h1⟩
          intro hmem
          obtain ⟨x, hx, hxname⟩ := List.mem_map.mp hmem
          have := (h2 x hx).1
          rw [hxname, hm] at this
          exact this (by simp)
        · intro x hx
          rw [hstep] at hx
          rcases List.mem_cons.mp hx with hx | hx
          · subst hx
            exact ⟨hm ▸ hd, hm ▸ List.mem_cons_self d ds⟩
          · have h := h2 x hx
            refine ⟨fun hmem => h.1 (by simp [hmem]), List.mem_cons_of_mem d h.2⟩

/-- C3 is false on the code: repeating an addon id in the selection makes
`resolveTemplates` push the same addon bundle twice, so the returned list
holds two bundles with the same name. -/
theorem resolveTemplates_duplicate_addon :
    (resolveTemplates exCat "cli" ["docker", "docker"]).map LoadedTemplate.name
      = ["core", "base", "cli", "docker", "docker"]
    ∧ ¬ ((resolveTemplates exCat "cli" ["docker", "docker"]).map
          LoadedTemplate.name).Nodup := by
  constructor
  · rfl
  · decide

theorem findArchetype_name (cat : Catalog) (a : String) (A : LoadedTemplate)
    (h : findArchetype cat a = some A) : A.name = a := by
  have := List.find?_some h
  simpa using this

/-- C3 amended: the resolved bundle list has pairwise-distinct names
provided the catalog is well-formed (the core bundle is named `core`, every
resolvable dependency reference yields a bundle named by that reference, and
the selected archetype does not list itself as a dependency), the archetype
id is not `core`, and the selected addon ids are pairwise distinct and do
not collide with any name resolved for the archetype alone. -/
theorem resolveTemplates_nodup_names (cat : Catalog) (archetypeName : String)
    (sel : List String)
    (hdep : ∀ d m, cat.depLookup d = some m → m.name = d)
    (hcore : ∀ c, cat.core = some c → c.name = "core")
    (hself : ∀ A, findArchetype cat archetypeName = some A →
      archetypeName ∉ A.dependencies)
    (harch : archetypeName ≠ "core")
    (hsel : sel.Nodup)
    (hselP : ∀ a ∈ sel,
      a ∉ (resolveTemplates cat archetypeName []).map LoadedTemplate.name) :
    ((resolveTemplates cat archetypeName sel).map LoadedTemplate.name).Nodup := by
  have hsplit : resolveTemplates cat archetypeName sel
      = resolveTemplates cat archetypeName [] ++ addonPart cat sel := by
    rw [resolveTemplates_eq_parts, resolveTemplates_eq_parts]
    simp [addonPart]
  rw [hsplit, List.map_append, List.nodup_append]
  refine ⟨?_, (addonPart_names_sublist cat sel).nodup hsel, ?_⟩
  · rw [resolveTemplates_eq_parts]
    have haddnil : addonPart cat ([] : List String) = [] := rfl
    rw [haddnil, List.append_nil]
    cases hf : findArchetype cat archetypeName with
    | none =>
      cases hc : cat.core with
      | none => simp [corePart, depPart, archPart, hc, hf]
      | some c => simp [corePart, depPart, archPart, hc, hf]
    | some A =>
      have hAname := findArchetype_name cat archetypeName A hf
      have hAdeps := hself A hf
      cases hc : cat.core with
      | none =>
        have hseen : initialSeen cat = [] := by simp [initialSeen, hc]
        obtain ⟨hD1, hD2⟩ :=
          depsResolved_names cat hdep A.dependencies (initialSeen cat)
        simp only [corePart, depPart, archPart, hc, hf, Option.toList_none,
          Option.toList_some, List.nil_append, List.map_append, List.map_cons,
          List.map_nil]
        rw [List.nodup_append]
        refine ⟨hD1, List.nodup_singleton _, ?_⟩
        intro x hx hxA
        obtain ⟨y, hy, hyname⟩ := List.mem_map.mp hx
        have hmem := (hD2 y hy).2
        rw [List.mem_singleton] at hxA
        rw [hxA, hAname] at hyname
        exact hAdeps (hyname ▸ hmem)
      | some c =>
        have hcname := hcore c hc
        have hseen : initialSeen cat = ["core"] := by simp [initialSeen, hc]
        obtain ⟨hD1, hD2⟩ :=
          depsResolved_names cat hdep A.dependencies (initialSeen cat)
        simp only [corePart, depPart, archPart, hc, hf, Option.toList_some,
          List.map_append, List.map_cons, List.map_nil, List.cons_append,
          List.nil_append, List.nodup_cons]
        constructor
        · intro hmem
          rcases List.mem_append.mp hmem with hmem | hmem
          · obtain ⟨y, hy, hyname⟩ := List.mem_map.mp hmem
            have := (hD2 y hy).1
            rw [hyname, hcname] at this
            exact this (by simp [hseen])
          · rw [List.mem_singleton] at hmem
            exact harch (by rw [← hAname, ← hmem, hcname])
        · rw [List.nodup_append]
          refine ⟨hD1, List.nodup_singleton _, ?_⟩
          intro x hx hxA
          obtain ⟨y, hy, hyname⟩ := List.mem_map.mp hx
          have hmem := (hD2 y hy).2
          rw [List.mem_singleton] at hxA
          rw [hxA, hAname] at hyname
          exact hAdeps (hyname ▸ hmem)
  · intro a haP haA
    obtain ⟨y, hy, hyname⟩ := List.mem_map.mp haA
    have hasel : a ∈ sel :=
      (addonPart_names_sublist cat sel).subset (hyname ▸ List.mem_map_of_mem _ hy)
    exact hselP a hasel haP

/-- Witness for the amended C3 on the example catalog. -/
theorem resolveTemplates_nodup_names_witness :
    ((resolveTemplates exCat "cli" ["docker"]).map LoadedTemplate.name).Nodup := by
  apply resolveTemplates_nodup_names exCat "cli" ["docker"]
  · intro d m hm
    simp only [exCat] at hm
    split at hm
    · cases hm
      rename_i h
      simp [baseT, h]
    · cases hm
  · intro c hc
    cases hc
    rfl
  · intro A hA hmem
    have hA' : cliT = A := by
      simpa [findArchetype, exCat, cliT] using hA
    subst hA'
    simp [cliT] at hmem
  · decide
  · decide
  · intro a ha
    simp only [List.mem_singleton] at ha
    subst ha
    decide

/-- `path.join` for the path shapes used by the generator (no `..`/`.`
segments occur there, so joining is plain concatenation with a slash). -/
def joinPath (a b : String) : String := a ++ "/" ++ b

/-- `getTemplatesDir()` as an abstract root. -/
def templatesDirPath : String := "templates"

/-- The `overlays` sub-directory of an archetype's template directory. -/
def overlaysPath (archetype : String) : String :=
  joinPath (joinPath templatesDirPath archetype) "overlays"

/-- The sequence of file writes performed by `applyTemplateFiles`
(base-command generation path): every resolved bundle except any whose
manifest name equals the configured archetype writes its rendered files,
descriptor file excluded.  Each event records the writing bundle's name,
the relative path, and the content. -/
def applyTemplateFilesWrites (cat : Catalog) (archetype : String)
    (addons : List String) : List (String × String × String) :=
  (resolveTemplates cat archetype addons).foldl
    (fun acc t =>
      if t.name = archetype then acc
      else
        acc ++ ((cat.render t.path).filter
          (fun pc => pc.1 ≠ "template.json")).map (fun pc => (t.name, pc.1, pc.2)))
    []

/-- The file writes performed by `applyOverlays`: the rendered overlays
directory of the configured archetype, descriptor file excluded, or nothing
when that directory does not exist. -/
def applyOverlaysWrites (cat : Catalog) (archetype : String) :
    List (String × String) :=
  if cat.overlaysAt archetype then
    (cat.render (overlaysPath archetype)).filter (fun pc => pc.1 ≠ "template.json")
  else []

theorem skipFoldl_eq (archetype : String)
    (f : LoadedTemplate → List (String × String × String)) :
    ∀ (ts : List LoadedTemplate) (acc : List (String × String × String)),
      ts.foldl (fun acc t => if t.name = archetype then acc else acc ++ f t) acc
        = acc ++ ((ts.filter (fun t => t.name ≠ archetype)).map f).flatten := by
  intro ts
  induction ts with
  | nil => intro acc; simp
  | cons t ts ih =>
    intro acc
    by_cases ht : t.name = archetype
    · simp [ht, ih]
    · simp [ht, ih]

/-- C9: on the base-command generation path, the template-application step
never writes a file from the bundle whose name equals the archetype id —
its writes are exactly those of the remaining (core, dependency, addon)
bundles, in resolution order; the archetype's overlays directory is applied
separately by `applyOverlays`. -/
theorem applyTemplateFiles_skips_archetype (cat : Catalog) (archetype : String)
    (addons : List String) :
    applyTemplateFilesWrites cat archetype addons
      = (((resolveTemplates cat archetype addons).filter
            (fun t => t.name ≠ archetype)).map
          (fun t => ((cat.render t.path).filter
            (fun pc => pc.1 ≠ "template.json")).map
              (fun pc => (t.name, pc.1, pc.2)))).flatten
    ∧ ∀ w ∈ applyTemplateFilesWrites cat archetype addons, w.1 ≠ archetype := by
  have heq := skipFoldl_eq archetype
    (fun t => ((cat.render t.path).filter
      (fun pc => pc.1 ≠ "template.json")).map (fun pc => (t.name, pc.1, pc.2)))
    (resolveTemplates cat archetype addons) []
  refine ⟨by simpa [applyTemplateFilesWrites] using heq, ?_⟩
  intro w hw
  rw [applyTemplateFilesWrites, heq] at hw
  simp only [List.nil_append, List.mem_flatten] at hw
  obtain ⟨l, hl, hwl⟩ := hw
  obtain ⟨t, ht, hlt⟩ := List.mem_map.mp hl
  have htname : t.name ≠ archetype := by
    have := List.of_mem_filter ht
    simpa using this
  subst hlt
  obtain ⟨pc, _, hpc⟩ := List.mem_map.mp hwl
  rw [← hpc]
  exact htname

/-- `collectSetupTasks`: walk the resolved bundles in order and keep each
task whose name has not been seen yet (the `seenNames` set), first
occurrence winning.  The accumulator pairs the kept tasks with the seen
names. -/
def collectSetupTasks (cat : Catalog) (archetype : String)
    (addons : List String) : List SetupTask :=
  ((resolveTemplates cat archetype addons).foldl
    (fun st t =>
      t.tasks.foldl
        (fun st2 task =>
          if task.name ∈ st2.2 then st2
          else (st2.1 ++ [task], st2.2 ++ [task.name]))
        st)
    ([], [])).1

/-- The `tasks` array of the setup configuration that `writeSetupConfig`
persists to `.bakery/setup.json`. -/
def writeSetupConfigTasks (cat : Catalog) (archetype : String)
    (addons : List String) : List SetupTask :=
  collectSetupTasks cat archetype addons

/-- First-occurrence deduplication of tasks by name, as a clean recursion. -/
def dedupFirstByName : List SetupTask → List String → List SetupTask
  | [], _ => []
  | t :: ts, seen =>
    if t.name ∈ seen then dedupFirstByName ts seen
    else t :: dedupFirstByName ts (seen ++ [t.name])

theorem taskFoldl_eq :
    ∀ (l : List SetupTask) (acc : List SetupTask) (seen : List String),
      (l.foldl
        (fun st2 task =>
          if task.name ∈ st2.2 then st2
          else (st2.1 ++ [task], st2.2 ++ [task.name]))
        (acc, seen)).1
      = acc ++ dedupFirstByName l seen := by
  intro l
  induction l with
  | nil => intro acc seen; simp [dedupFirstByName]
  | cons t ts ih =>
    intro acc seen
    by_cases ht : t.name ∈ seen
    · simp [dedupFirstByName, ht, ih]
    · simp [dedupFirstByName, ht, ih]

/-- The `seenNames` set after feeding a task list through the dedup loop. -/
def dedupSeenUpdate : List SetupTask → List String → List String
  | [], seen => seen
  | t :: ts, seen =>
    if t.name ∈ seen then dedupSeenUpdate ts seen
    else dedupSeenUpdate ts (seen ++ [t.name])

theorem taskFoldl_full :
    ∀ (l : List SetupTask) (acc : List SetupTask) (seen : List String),
      l.foldl
        (fun st2 task =>
          if task.name ∈ st2.2 then st2
          else (st2.1 ++ [task], st2.2 ++ [task.name]))
        (acc, seen)
      = (acc ++ dedupFirstByName l seen, dedupSeenUpdate l seen) := by
  intro l
  induction l with
  | nil => intro acc seen; simp [dedupFirstByName, dedupSeenUpdate]
  | cons t ts ih =>
    intro acc seen
    by_cases ht : t.name ∈ seen
    · simp [dedupFirstByName, dedupSeenUpdate, ht, ih]
    · simp [dedupFirstByName, dedupSeenUpdate, ht, ih]

theorem dedupFirstByName_append (l₁ l₂ : List SetupTask) :
    ∀ seen : List String,
      dedupFirstByName (l₁ ++ l₂) seen
        = dedupFirstByName l₁ seen ++ dedupFirstByName l₂ (dedupSeenUpdate l₁ seen) := by
  induction l₁ with
  | nil => intro seen; simp [dedupFirstByName, dedupSeenUpdate]
  | cons t ts ih =>
    intro seen
    by_cases ht : t.name ∈ seen
    · simp [dedupFirstByName, dedupSeenUpdate, ht, ih]
    · simp [dedupFirstByName, dedupSeenUpdate, ht, ih]

theorem dedupSeenUpdate_append (l₁ l₂ : List SetupTask) :
    ∀ seen : List String,
      dedupSeenUpdate (l₁ ++ l₂) seen
        = dedupSeenUpdate l₂ (dedupSeenUpdate l₁ seen) := by
  induction l₁ with
  | nil => intro seen; simp [dedupSeenUpdate]
  | cons t ts ih =>
    intro seen
    by_cases ht : t.name ∈ seen
    · simp [dedupSeenUpdate, ht, ih]
    · simp [dedupSeenUpdate, ht, ih]

theorem collectFoldl_full :
    ∀ (ts : List LoadedTemplate) (acc : List SetupTask) (seen : List String),
      ts.foldl
        (fun st t =>
          t.tasks.foldl
            (fun st2 task =>
              if task.name ∈ st2.2 then st2
              else (st2.1 ++ [task], st2.2 ++ [task.name]))
            st)
        (acc, seen)
      = (acc ++ dedupFirstByName ((ts.map LoadedTemplate.tasks).flatten) seen,
         dedupSeenUpdate ((ts.map LoadedTemplate.tasks).flatten) seen) := by
  intro ts
  induction ts with
  | nil => intro acc seen; simp [dedupFirstByName, dedupSeenUpdate]
  | cons t ts ih =>
    intro acc seen
    simp only [List.foldl_cons, taskFoldl_full, ih, List.map_cons, List.flatten_cons,
      dedupFirstByName_append, dedupSeenUpdate_append, List.append_assoc]

theorem dedupFirstByName_names (l : List SetupTask) :
    ∀ seen : List String,
      ((dedupFirstByName l seen).map SetupTask.name).Nodup
      ∧ ∀ x ∈ dedupFirstByName l seen, x.name ∉ seen := by
  induction l with
  | nil => intro seen; simp [dedupFirstByName]
  | cons t ts ih =>
    intro seen
    by_cases ht : t.name ∈ seen
    · obtain ⟨h1, h2⟩ := ih seen
      refine ⟨by simpa [dedupFirstByName, ht] using h1, ?_⟩
      intro x hx
      rw [dedupFirstByName, if_pos ht] at hx
      exact h2 x hx
    · obtain ⟨h1, h2⟩ := ih (seen ++ [t.name])
      have hstep : dedupFirstByName (t :: ts) seen
          = t :: dedupFirstByName ts (seen ++ [t.name]) := by
        rw [dedupFirstByName, if_neg ht]
      constructor
      · rw [hstep]
        simp only [List.map_cons, List.nodup_cons]
        refine ⟨?_, h1⟩
        intro hmem
        obtain ⟨x, hx, hxname⟩ := List.mem_map.mp hmem
        exact (h2 x hx) (by simp [hxname])
      · intro x hx
        rw [hstep] at hx
        rcases List.mem_cons.mp hx with hx | hx
        · subst hx; exact ht
        · intro hmem
          exact (h2 x hx) (by simp [hmem])

theorem dedupFirstByName_find (l : List SetupTask) :
    ∀ (seen : List String) (n : String), n ∉ seen →
      (dedupFirstByName l seen).find? (fun t => t.name == n)
        = l.find? (fun t => t.name == n) := by
  induction l with
  | nil => intro seen n _; rfl
  | cons t ts ih =>
    intro seen n hn
    by_cases htn : t.name = n
    · have ht : t.name ∉ seen := htn ▸ hn
      rw [dedupFirstByName, if_neg ht]
      simp [List.find?, htn]
    · have htn' : (t.name == n) = false := by simpa using htn
      by_cases ht : t.name ∈ seen
      · rw [dedupFirstByName, if_pos ht]
        simp [List.find?, htn', ih seen n hn]
      · rw [dedupFirstByName, if_neg ht]
        have hn' : n ∉ seen ++ [t.name] := by
          simp only [List.mem_append, List.mem_singleton, not_or]
          exact ⟨hn, fun e => htn e.symm⟩
        simp [List.find?, htn', ih (seen ++ [t.name]) n hn']

/-- C10: the task list persisted by `writeSetupConfig` is the
first-occurrence-by-name deduplication of all resolved bundles' tasks in
resolution order: its names are pairwise distinct, and the entry kept for
any name is the one of the earliest bundle declaring it — the opposite
precedence of the last-wins file merge. -/
theorem writeSetupConfigTasks_first_wins (cat : Catalog) (archetype : String)
    (addons : List String) :
    writeSetupConfigTasks cat archetype addons
      = dedupFirstByName
          (((resolveTemplates cat archetype addons).map
            LoadedTemplate.tasks).flatten) []
    ∧ ((writeSetupConfigTasks cat archetype addons).map SetupTask.name).Nodup
    ∧ ∀ n : String,
        (writeSetupConfigTasks cat archetype addons).find?
            (fun t => t.name == n)
          = (((resolveTemplates cat archetype addons).map
              LoadedTemplate.tasks).flatten).find? (fun t => t.name == n) := by
  have key : writeSetupConfigTasks cat archetype addons
      = dedupFirstByName
          (((resolveTemplates cat archetype addons).map
            LoadedTemplate.tasks).flatten) [] := by
    unfold writeSetupConfigTasks collectSetupTasks
    rw [collectFoldl_full]
    simp
  refine ⟨key, ?_, ?_⟩
  · rw [key]
    exact (dedupFirstByName_names _ []).1
  · intro n
    rw [key]
    exact dedupFirstByName_find _ [] n (by simp)

/-- One entry of the dry-run file listing: relative path and byte size. -/
structure DryRunFile where
  path : String
  size : Nat
deriving DecidableEq

/-- The result record of `generateProjectDryRun`. -/
structure DryRunResult where
  files : List DryRunFile
  totalSize : Nat
  commands : List String
  dependencies : List String
  devDependencies : List String
deriving DecidableEq

/-- `{{projectName}}` / `{{parentDir}}` substitution performed on
`baseCommand` strings (`String.replace` replaces every occurrence, like the
`/g` regexes of the source). -/
def substTemplateVars (s projectName parentDir : String) : String :=
  (s.replace "{{projectName}}" projectName).replace "{{parentDir}}" parentDir

/-- `generateProjectDryRun(config, outputDir)`: collect the base command and
its dependency additions when the archetype manifest declares one, then list
every rendered file of every resolved bundle (descriptor excluded) with its
UTF-8 byte size, then merge the archetype's overlays directory on top,
replacing colliding listed entries in place.  `projectName` and `parentDir`
stand for `path.basename(outputDir)` and `path.dirname(outputDir)`. -/
def generateProjectDryRun (cat : Catalog) (archetype : String)
    (addons : List String) (projectName parentDir : String) : DryRunResult :=
  let base : DryRunResult :=
    { files := [], totalSize := 0, commands := [], dependencies := [],
      devDependencies := [] }
  let withCmd : DryRunResult :=
    match cat.archDirManifest archetype with
    | some m =>
      match m.baseCommand with
      | some bc =>
        let command := substTemplateVars bc.command projectName parentDir
        let deps :=
          match m.postProcess with
          | some pp => pp.addDeps.map (fun nv => nv.1 ++ "@" ++ nv.2)
          | none => []
        let devDeps :=
          match m.postProcess with
          | some pp => pp.addDevDeps.map (fun nv => nv.1 ++ "@" ++ nv.2)
          | none => []
        { base with
            commands := [command], dependencies := deps,
            devDependencies := devDeps }
      | none => base
    | none => base
  let withFiles : DryRunResult :=
    (resolveTemplates cat archetype addons).foldl
      (fun r t =>
        (cat.render t.path).foldl
          (fun r2 pc =>
            if pc.1 ≠ "template.json" then
              { r2 with
                  files := r2.files ++ [⟨pc.1, pc.2.utf8ByteSize⟩],
                  totalSize := r2.totalSize + pc.2.utf8ByteSize }
            else r2)
          r)
      withCmd
  if cat.overlaysAt archetype then
    (cat.render (overlaysPath archetype)).foldl
      (fun r pc =>
        if pc.1 ≠ "template.json" then
          let size := pc.2.utf8ByteSize
          match r.files.findIdx? (fun f => f.path == pc.1) with
          | some i =>
            let existing := r.files.getD i ⟨pc.1, 0⟩
            { r with
                files := r.files.set i ⟨pc.1, size⟩,
                totalSize := r.totalSize - existing.size + size }
          | none =>
            { r with
                files := r.files ++ [⟨pc.1, size⟩],
                totalSize := r.totalSize + size }
        else r)
      withFiles
  else withFiles

/-- What `generateProject` does: with a `baseCommand` in the archetype's
manifest it shells out to the external generator (outside this model) and
then applies templates and overlays; otherwise it composes and writes
`composeFileSet` over the resolved bundles. -/
inductive GenerationPlan where
  | fromBaseCommand (manifest : ArchDirManifest)
  | fromTemplates (files : FileMap)
deriving DecidableEq

/-- The dispatch of `generateProject(config, outputDir)`. -/
def generateProjectPlan (cat : Catalog) (archetype : String)
    (addons : List String) : GenerationPlan :=
  match cat.archDirManifest archetype with
  | some m =>
    match m.baseCommand with
    | some _ => GenerationPlan.fromBaseCommand m
    | none =>
      GenerationPlan.fromTemplates
        (composeFileSet cat.render (resolveTemplates cat archetype addons))
  | none =>
    GenerationPlan.fromTemplates
      (composeFileSet cat.render (resolveTemplates cat archetype addons))

/-- A catalog on which two resolved bundles render the same path: core
renders `x.txt` as `1`, the `cli` archetype renders `x.txt` as `22`. -/
def cxCat : Catalog where
  core := some coreT
  archetypes := [cliT]
  depLookup := fun _ => none
  addons := []
  render := fun p =>
    if p = "templates/core" then [("x.txt", "1")]
    else if p = "templates/cli" then [("x.txt", "22")]
    else []
  archDirManifest := fun _ => none
  overlaysAt := fun _ => false

/-- C5 is false on the code: when two bundles define the same path, the dry
run lists that path once per bundle (sizes of both renderings included)
while the real generation path writes it exactly once — the dry-run file
loop never merges collisions. -/
theorem dryRun_duplicates_colliding_paths :
    (generateProjectDryRun cxCat "cli" [] "proj" "parent").files.map
        DryRunFile.path = ["x.txt", "x.txt"]
    ∧ (generateProjectDryRun cxCat "cli" [] "proj" "parent").files.map
        DryRunFile.size = [1, 2]
    ∧ composeFileSet cxCat.render (resolveTemplates cxCat "cli" [])
        = [("x.txt", "22")]
    ∧ generateProjectPlan cxCat "cli" []
        = GenerationPlan.fromTemplates [("x.txt", "22")] := by
  refine ⟨rfl, rfl, rfl, rfl⟩

theorem mapGet_append (m₁ m₂ : FileMap) (k : String) :
    mapGet (m₁ ++ m₂) k = (mapGet m₁ k).or (mapGet m₂ k) := by
  induction m₁ with
  | nil => simp [mapGet, Option.or]
  | cons kv tl ih =>
    obtain ⟨k₀, v₀⟩ := kv
    by_cases hk : k₀ = k
    · simp [mapGet, hk, Option.or]
    · simp [mapGet, hk, ih]

theorem mapSet_of_not_mem (m : FileMap) (k v : String)
    (h : mapGet m k = none) : mapSet m k v = m ++ [(k, v)] := by
  induction m with
  | nil => simp [mapSet]
  | cons kv tl ih =>
    obtain ⟨k₀, v₀⟩ := kv
    by_cases hk : k₀ = k
    · rw [mapGet, if_pos hk] at h
      cases h
    · rw [mapGet, if_neg hk] at h
      simp [mapSet, hk, ih h]

theorem setEntries_filter_descriptor (l : List (String × String)) :
    ∀ m : FileMap,
      setEntries m l
        = setEntries m (l.filter (fun pc => pc.1 ≠ "template.json")) := by
  induction l with
  | nil => intro m; rfl
  | cons pc tl ih =>
    intro m
    by_cases hp : pc.1 = "template.json"
    · simp only [setEntries, List.foldl_cons, List.filter_cons] at ih ⊢
      rw [if_neg (by simpa using hp)]
      simp only [hp, decide_not, decide_True]
      simpa [hp] using ih m
    · simp only [setEntries, List.foldl_cons, List.filter_cons] at ih ⊢
      rw [if_pos hp]
      have hcond : (decide ¬pc.1 = "template.json") = true := by simpa using hp
      rw [hcond]
      simp only [if_true, List.foldl_cons]
      rw [if_pos hp]
      exact ih (mapSet m pc.1 pc.2)

theorem setEntries_fresh (l : List (String × String)) :
    ∀ m : FileMap,
      ((l.map Prod.fst).Nodup) →
      (∀ pc ∈ l, mapGet m pc.1 = none) →
      (∀ pc ∈ l, pc.1 ≠ "template.json") →
      setEntries m l = m ++ l := by
  induction l with
  | nil => intro m _ _ _; simp [setEntries]
  | cons pc tl ih =>
    intro m hnodup hfresh htj
    simp only [List.map_cons, List.nodup_cons] at hnodup
    have hptj := htj pc (List.mem_cons_self pc tl)
    have hset : mapSet m pc.1 pc.2 = m ++ [pc] := by
      rw [mapSet_of_not_mem m pc.1 pc.2 (hfresh pc (List.mem_cons_self pc tl))]
    have hfresh' : ∀ qc ∈ tl, mapGet (m ++ [pc]) qc.1 = none := by
      intro qc hqc
      rw [mapGet_append]
      rw [hfresh qc (List.mem_cons_of_mem pc hqc)]
      have hne : pc.1 ≠ qc.1 := by
        intro e
        exact hnodup.1 (e ▸ List.mem_map_of_mem Prod.fst hqc)
      simp [mapGet, hne, Option.or]
    have step : setEntries m (pc :: tl) = setEntries (m ++ [pc]) tl := by
      simp only [setEntries, List.foldl_cons]
      rw [if_pos hptj, hset]
    rw [step,
      ih (m ++ [pc]) hnodup.2 hfresh'
        (fun qc hqc => htj qc (List.mem_cons_of_mem pc hqc))]
    simp

theorem filter_flatten_comm (L : List (List (String × String))) :
    (L.flatten).filter (fun pc => pc.1 ≠ "template.json")
      = (L.map (fun l => l.filter (fun pc => pc.1 ≠ "template.json"))).flatten := by
  induction L with
  | nil => rfl
  | cons l ls ih => simp [List.filter_append, ih]

theorem dryFilesInner (l : List (String × String)) :
    ∀ r : DryRunResult,
      (l.foldl
        (fun r2 pc =>
          if pc.1 ≠ "template.json" then
            { r2 with
                files := r2.files ++ [⟨pc.1, pc.2.utf8ByteSize⟩],
                totalSize := r2.totalSize + pc.2.utf8ByteSize }
          else r2)
        r).files
      = r.files
        ++ (l.filter (fun pc => pc.1 ≠ "template.json")).map
            (fun pc => (⟨pc.1, pc.2.utf8ByteSize⟩ : DryRunFile)) := by
  induction l with
  | nil => intro r; simp
  | cons pc tl ih =>
    intro r
    by_cases hp : pc.1 = "template.json"
    · simp only [List.foldl_cons, List.filter_cons]
      rw [if_neg (by simpa using hp)]
      have hcond : (decide ¬pc.1 = "template.json") = false := by simpa using hp
      rw [hcond]
      exact ih r
    · simp only [List.foldl_cons, List.filter_cons]
      rw [if_pos hp]
      have hcond : (decide ¬pc.1 = "template.json") = true := by simpa using hp
      rw [hcond]
      simp only [List.map_cons]
      rw [ih]
      simp

theorem dryFilesOuter (cat : Catalog) (ts : List LoadedTemplate) :
    ∀ r : DryRunResult,
      (ts.foldl
        (fun r t =>
          (cat.render t.path).foldl
            (fun r2 pc =>
              if pc.1 ≠ "template.json" then
                { r2 with
                    files := r2.files ++ [⟨pc.1, pc.2.utf8ByteSize⟩],
                    totalSize := r2.totalSize + pc.2.utf8ByteSize }
              else r2)
            r)
        r).files
      = r.files
        ++ ((ts.map (fun t =>
            ((cat.render t.path).filter (fun pc => pc.1 ≠ "template.json")).map
              (fun pc => (⟨pc.1, pc.2.utf8ByteSize⟩ : DryRunFile)))).flatten) := by
  induction ts with
  | nil => intro r; simp
  | cons t ts ih =>
    intro r
    simp only [List.foldl_cons, List.map_cons, List.flatten_cons]
    rw [ih, dryFilesInner]
    simp

theorem dryRunFiles_no_overlay (cat : Catalog) (archetype : String)
    (addons : List String) (projectName parentDir : String)
    (hover : cat.overlaysAt archetype = false) :
    (generateProjectDryRun cat archetype addons projectName parentDir).files
      = ((resolveTemplates cat archetype addons).map (fun t =>
          ((cat.render t.path).filter (fun pc => pc.1 ≠ "template.json")).map
            (fun pc => (⟨pc.1, pc.2.utf8ByteSize⟩ : DryRunFile)))).flatten := by
  unfold generateProjectDryRun
  rw [hover]
  simp only [Bool.false_eq_true, if_false]
  rw [dryFilesOuter]
  cases hm : cat.archDirManifest archetype with
  | none => simp [hm]
  | some m =>
    cases hb : m.baseCommand with
    | none => simp [hm, hb]
    | some bc =>
      cases hp : m.postProcess with
      | none => simp [hm, hb, hp]
      | some pp => simp [hm, hb, hp]

theorem composeFileSet_of_disjoint (cat : Catalog) (archetype : String)
    (addons : List String)
    (hnodup : ((((resolveTemplates cat archetype addons).map
        (fun t => (cat.render t.path).filter
          (fun pc => pc.1 ≠ "template.json"))).flatten).map Prod.fst).Nodup) :
    composeFileSet cat.render (resolveTemplates cat archetype addons)
      = ((resolveTemplates cat archetype addons).map
          (fun t => (cat.render t.path).filter
            (fun pc => pc.1 ≠ "template.json"))).flatten := by
  rw [composeFileSet_eq_setEntries_flat, setEntries_filter_descriptor,
    filter_flatten_comm, List.map_map]
  have htj : ∀ pc ∈ (((resolveTemplates cat archetype addons).map
      (fun t => (cat.render t.path).filter
        (fun pc => pc.1 ≠ "template.json"))).flatten),
      pc.1 ≠ "template.json" := by
    intro pc hpc
    obtain ⟨l, hl, hpcl⟩ := List.mem_flatten.mp hpc
    obtain ⟨t, _, hlt⟩ := List.mem_map.mp hl
    subst hlt
    have := List.of_mem_filter hpcl
    simpa using this
  have h := setEntries_fresh
    (((resolveTemplates cat archetype addons).map
      (fun t => (cat.render t.path).filter
        (fun pc => pc.1 ≠ "template.json"))).flatten)
    [] hnodup (fun pc _ => rfl) htj
  simpa [Function.comp] using h

/-- C5 amended: whenever generation takes the template path (no
`baseCommand`), the archetype has no overlays directory, and the resolved
bundles render pairwise-disjoint path sets, the dry run lists exactly the
relative paths of the files the real generation would write, each once,
with its UTF-8 byte size. -/
theorem dryRun_matches_generation (cat : Catalog) (archetype : String)
    (addons : List String) (projectName parentDir : String) (fs : FileMap)
    (hplan : generateProjectPlan cat archetype addons
      = GenerationPlan.fromTemplates fs)
    (hover : cat.overlaysAt archetype = false)
    (hnodup : ((((resolveTemplates cat archetype addons).map
        (fun t => (cat.render t.path).filter
          (fun pc => pc.1 ≠ "template.json"))).flatten).map Prod.fst).Nodup) :
    (generateProjectDryRun cat archetype addons projectName parentDir).files
      = fs.map (fun pc => (⟨pc.1, pc.2.utf8ByteSize⟩ : DryRunFile)) := by
  have hfs : fs = composeFileSet cat.render
      (resolveTemplates cat archetype addons) := by
    unfold generateProjectPlan at hplan
    cases hm : cat.archDirManifest archetype with
    | none =>
      simp only [hm] at hplan
      cases hplan
      rfl
    | some m =>
      cases hb : m.baseCommand with
      | none =>
        simp only [hm, hb] at hplan
        cases hplan
        rfl
      | some bc =>
        simp only [hm, hb] at hplan
        cases hplan
  rw [dryRunFiles_no_overlay cat archetype addons projectName parentDir hover,
    hfs, composeFileSet_of_disjoint cat archetype addons hnodup,
    List.map_flatten, List.map_map]
  simp [Function.comp_def]

/-- A catalog whose two resolved bundles render disjoint path sets. -/
def dryCat : Catalog where
  core := some coreT
  archetypes := [cliT]
  depLookup := fun _ => none
  addons := []
  render := fun p =>
    if p = "templates/core" then [("a.txt", "hi")]
    else if p = "templates/cli" then [("b.txt", "yo!")]
    else []
  archDirManifest := fun _ => none
  overlaysAt := fun _ => false

/-- Witness for the amended C5 on the collision-free catalog. -/
theorem dryRun_matches_generation_witness :
    (generateProjectDryRun dryCat "cli" [] "proj" "parent").files
      = (composeFileSet dryCat.render (resolveTemplates dryCat "cli" [])).map
          (fun pc => (⟨pc.1, pc.2.utf8ByteSize⟩ : DryRunFile)) :=
  dryRun_matches_generation dryCat "cli" [] "proj" "parent"
    (composeFileSet dryCat.render (resolveTemplates dryCat "cli" []))
    rfl rfl (by decide)

/-- A JSON value, as produced by `JSON.parse`. -/
inductive Json where
  | null
  | bool (b : Bool)
  | num (n : Int)
  | str (s : String)
  | arr (elems : List Json)
  | obj (fields : List (String × Json))

/-- Object field lookup (first occurrence, as JavaScript objects have unique
keys). -/
def jsonField (j : Json) (k : String) : Option Json :=
  match j with
  | Json.obj fields => (fields.find? (fun f => f.1 == k)).map (fun f => f.2)
  | _ => none

/-- `z.string()`. -/
def parseStr : Json → Option String
  | Json.str s => some s
  | _ => none

/-- `z.array(inner)`. -/
def parseArrayWith {α : Type} (inner : Json → Option α) : Json → Option (List α)
  | Json.arr xs => xs.mapM inner
  | _ => none

/-- A required object field: absent or invalid fails. -/
def reqField {α : Type} (j : Json) (k : String) (p : Json → Option α) :
    Option α :=
  match jsonField j k with
  | some v => p v
  | none => none

/-- An `.optional()` object field: absent is fine, present must validate. -/
def optField {α : Type} (j : Json) (k : String) (p : Json → Option α) :
    Option (Option α) :=
  match jsonField j k with
  | some v => (p v).map some
  | none => some none

/-- A `.default(d)` object field: absent yields the default, present must
validate. -/
def defField {α : Type} (j : Json) (k : String) (p : Json → Option α)
    (d : α) : Option α :=
  match jsonField j k with
  | some v => p v
  | none => some d

/-- A select/multiselect option of a prompt definition. -/
structure PromptOption where
  value : String
  label : String

/-- One prompt definition of the `prompts` array. -/
structure PromptDef where
  name : String
  type : String
  message : String
  default : Option Json
  options : Option (List PromptOption)

/-- The `hooks` object: optional before/after hook references. -/
structure Hooks where
  beforeGenerate : Option String
  afterGenerate : Option String

/-- The validated archetype manifest produced by
`ArchetypeManifestSchema.parse`. -/
structure ArchetypeManifest where
  name : String
  displayName : String
  description : String
  version : String
  dependencies : List String
  prompts : List PromptDef
  files : Option (List String)
  exclude : List String
  baseCommand : Option BaseCommand
  postProcess : Option PostProcess
  hooks : Hooks

/-- The prompt `type` enum: `text | select | multiselect | confirm`. -/
def parsePromptType (j : Json) : Option String :=
  match j with
  | Json.str s =>
    if s = "text" ∨ s = "select" ∨ s = "multiselect" ∨ s = "confirm" then
      some s
    else none
  | _ => none

/-- The option-object schema `{value, label}`. -/
def parsePromptOption (j : Json) : Option PromptOption :=
  match j with
  | Json.obj _ => do
    let value ← reqField j "value" parseStr
    let label ← reqField j "label" parseStr
    some { value, label }
  | _ => none

/-- The prompt-object schema of the `prompts` array. -/
def parsePromptDef (j : Json) : Option PromptDef :=
  match j with
  | Json.obj _ => do
    let name ← reqField j "name" parseStr
    let type ← reqField j "type" parsePromptType
    let message ← reqField j "message" parseStr
    let options ← optField j "options" (parseArrayWith parsePromptOption)
    some { name, type, message, default := jsonField j "default", options }
  | _ => none

/-- The `baseCommand` object schema: required `command`, `workdir`
defaulting to `{{parentDir}}`. -/
def parseBaseCommand (j : Json) : Option BaseCommand :=
  match j with
  | Json.obj _ => do
    let command ← reqField j "command" parseStr
    let workdir ← defField j "workdir" parseStr "{{parentDir}}"
    some { command, workdir }
  | _ => none

/-- `z.record(z.string(), z.string())`. -/
def parseRecordStr : Json → Option (List (String × String))
  | Json.obj fields =>
    fields.mapM (fun f => (parseStr f.2).map (fun s => (f.1, s)))
  | _ => none

/-- `PostProcessSchema`: every field defaulted. -/
def parsePostProcess (j : Json) : Option PostProcess :=
  match j with
  | Json.obj _ => do
    let remove ← defField j "remove" (parseArrayWith parseStr) []
    let removeDeps ← defField j "removeDeps" (parseArrayWith parseStr) []
    let addDeps ← defField j "addDeps" parseRecordStr []
    let addDevDeps ← defField j "addDevDeps" parseRecordStr []
    let updateScripts ← defField j "updateScripts" parseRecordStr []
    some { remove, removeDeps, addDeps, addDevDeps, updateScripts }
  | _ => none

/-- The `hooks` object schema: two optional strings. -/
def parseHooks (j : Json) : Option Hooks :=
  match j with
  | Json.obj _ => do
    let beforeGenerate ← optField j "beforeGenerate" parseStr
    let afterGenerate ← optField j "afterGenerate" parseStr
    some { beforeGenerate, afterGenerate }
  | _ => none

/-- `ArchetypeManifestSchema.parse`, as validation returning `none` instead
of throwing: required `name`/`displayName`/`description` strings; `version`
defaults to `1.0.0`; `dependencies`, `prompts` and `exclude` default to
empty arrays; `files`, `baseCommand` and `postProcess` are optional; `hooks`
defaults to the empty hook object. -/
def parseArchetypeManifest (j : Json) : Option ArchetypeManifest :=
  match j with
  | Json.obj _ => do
    let name ← reqField j "name" parseStr
    let displayName ← reqField j "displayName" parseStr
    let description ← reqField j "description" parseStr
    let version ← defField j "version" parseStr "1.0.0"
    let dependencies ← defField j "dependencies" (parseArrayWith parseStr) []
    let prompts ← defField j "prompts" (parseArrayWith parsePromptDef) []
    let files ← optField j "files" (parseArrayWith parseStr)
    let exclude ← defField j "exclude" (parseArrayWith parseStr) []
    let baseCommand ← optField j "baseCommand" parseBaseCommand
    let postProcess ← optField j "postProcess" parsePostProcess
    let hooks ← defField j "hooks" parseHooks ⟨none, none⟩
    some { name, displayName, description, version, dependencies, prompts,
           files, exclude, baseCommand, postProcess, hooks }
  | _ => none

/-- `loadTemplateManifest(templateDir)`: `file` is the content of
`templateDir/template.json` when `existsSync` finds it, `parse` stands for
`JSON.parse` with `none` where the JavaScript function would throw.  The
`try/catch` of the source turns every failure into `null`. -/
def loadTemplateManifest (parse : String → Option Json)
    (file : Option String) : Option ArchetypeManifest :=
  match file with
  | none => none
  | some content =>
    match parse content with
    | none => none
    | some json => parseArchetypeManifest json

/-- C7: `loadTemplateManifest` is total and yields `none` — never an
exception — for a missing descriptor file, unparseable JSON, or a record
failing validation (a missing required field in particular); and a
descriptor holding only the three required fields receives the documented
defaults: version `1.0.0`, empty dependencies, prompts and exclude, empty
hooks. -/
theorem loadTemplateManifest_total_and_defaults
    (parse : String → Option Json) (content : String)
    (j : Json) (n d s : String) :
    loadTemplateManifest parse none = none
    ∧ (parse content = none → loadTemplateManifest parse (some content) = none)
    ∧ (parse content = some j → parseArchetypeManifest j = none →
        loadTemplateManifest parse (some content) = none)
    ∧ parseArchetypeManifest
        (Json.obj [("displayName", Json.str d), ("description", Json.str s)])
      = none
    ∧ parseArchetypeManifest
        (Json.obj [("name", Json.str n), ("displayName", Json.str d),
          ("description", Json.str s)])
      = some { name := n, displayName := d, description := s,
               version := "1.0.0", dependencies := [], prompts := [],
               files := none, exclude := [], baseCommand := none,
               postProcess := none, hooks := ⟨none, none⟩ } := by
  refine ⟨rfl, ?_, ?_, rfl, rfl⟩
  · intro h
    simp [loadTemplateManifest, h]
  · intro h1 h2
    simp [loadTemplateManifest, h1, h2]

/-- Witness for C7: a parse failure and a validation failure both yield
`none`; the minimal descriptor receives the defaults. -/
theorem loadTemplateManifest_total_and_defaults_witness :
    loadTemplateManifest (fun _ => none) (some "nonsense") = none
    ∧ loadTemplateManifest (fun _ => some Json.null) (some "null") = none
    ∧ parseArchetypeManifest
        (Json.obj [("name", Json.str "cli"), ("displayName", Json.str "CLI"),
          ("description", Json.str "cli tool")])
      = some { name := "cli", displayName := "CLI", description := "cli tool",
               version := "1.0.0", dependencies := [], prompts := [],
               files := none, exclude := [], baseCommand := none,
               postProcess := none, hooks := ⟨none, none⟩ } := by
  have h1 := loadTemplateManifest_total_and_defaults (fun _ => none)
    "nonsense" Json.null "cli" "CLI" "cli tool"
  have h2 := loadTemplateManifest_total_and_defaults (fun _ => some Json.null)
    "null" Json.null "cli" "CLI" "cli tool"
  exact ⟨h1.2.1 rfl, h2.2.2.1 rfl rfl, h1.2.2.2.2⟩

/-- UTF-8 encoding of one Unicode scalar value, as `Buffer.from(s, 'utf-8')`
encodes it. -/
def utf8Encode (c : Nat) : List Nat :=
  if c < 128 then [c]
  else if c < 2048 then [192 ||| (c >>> 6), 128 ||| (c &&& 63)]
  else if c < 65536 then
    [224 ||| (c >>> 12), 128 ||| ((c >>> 6) &&& 63), 128 ||| (c &&& 63)]
  else
    [240 ||| (c >>> 18), 128 ||| ((c >>> 12) &&& 63),
     128 ||| ((c >>> 6) &&& 63), 128 ||| (c &&& 63)]

/-- The UTF-8 byte sequence of a string. -/
def strBytes (s : String) : List Nat :=
  (s.data.map (fun c => utf8Encode c.toNat)).flatten

/-- 32-bit right rotation on `Nat` values below `2^32`. -/
def rotr32 (x n : Nat) : Nat :=
  ((x >>> n) ||| (x <<< (32 - n))) % 4294967296

/-- Big-endian byte decomposition, `len` bytes. -/
def toBytesBE (len n : Nat) : List Nat :=
  (List.range len).map (fun i => (n >>> (8 * (len - 1 - i))) % 256)

/-- SHA-256 message padding: `0x80`, zeros to 56 mod 64, then the bit length
as eight big-endian bytes. -/
def padMessage (msg : List Nat) : List Nat :=
  let L := msg.length
  let k := (119 - (L % 64)) % 64
  msg ++ [128] ++ List.replicate k 0 ++ toBytesBE 8 (8 * L)

/-- The sixteen big-endian 32-bit words of one 64-byte block. -/
def bytesToWords (block : List Nat) : List Nat :=
  (List.range 16).map (fun i =>
    (block.getD (4 * i) 0) * 16777216 + (block.getD (4 * i + 1) 0) * 65536
      + (block.getD (4 * i + 2) 0) * 256 + block.getD (4 * i + 3) 0)

/-- The SHA-256 round constants. -/
def roundK : List Nat :=
  [1116352408, 1899447441, 3049323471, 3921009573, 961987163,
   1508970993, 2453635748, 2870763221, 3624381080, 310598401,
   607225278, 1426881987, 1925078388, 2162078206, 2614888103,
   3248222580, 3835390401, 4022224774, 264347078, 604807628,
   770255983, 1249150122, 1555081692, 1996064986, 2554220882,
   2821834349, 2952996808, 3210313671, 3336571891, 3584528711,
   113926993, 338241895, 666307205, 773529912, 1294757372,
   1396182291, 1695183700, 1986661051, 2177026350, 2456956037,
   2730485921, 2820302411, 3259730800, 3345764771, 3516065817,
   3600352804, 4094571909, 275423344, 430227734, 506948616,
   659060556, 883997877, 958139571, 1322822218, 1537002063,
   1747873779, 1955562222, 2024104815, 2227730452, 2361852424,
   2428436474, 2756734187, 3204031479, 3329325298]

/-- The SHA-256 initial hash state. -/
def initH : List Nat :=
  [1779033703, 3144134277, 1013904242, 2773480762, 1359893119,
   2600822924, 528734635, 1541459225]

/-- Extension of the sixteen block words to the 64-entry message schedule. -/
def extendSchedule (w16 : List Nat) : List Nat :=
  (List.range 48).foldl
    (fun w _ =>
      let i := w.length
      let w15 := w.getD (i - 15) 0
      let w2 := w.getD (i - 2) 0
      let s0 := (rotr32 w15 7) ^^^ (rotr32 w15 18) ^^^ (w15 >>> 3)
      let s1 := (rotr32 w2 17) ^^^ (rotr32 w2 19) ^^^ (w2 >>> 10)
      w ++ [(w.getD (i - 16) 0 + s0 + w.getD (i - 7) 0 + s1) % 4294967296])
    w16

/-- The SHA-256 compression of one scheduled block into the hash state. -/
def compressBlock (h : List Nat) (w : List Nat) : List Nat :=
  let init : Nat × Nat × Nat × Nat × Nat × Nat × Nat × Nat :=
    (h.getD 0 0, h.getD 1 0, h.getD 2 0, h.getD 3 0,
     h.getD 4 0, h.getD 5 0, h.getD 6 0, h.getD 7 0)
  let fin := (roundK.zip w).foldl
    (fun st kw =>
      let (a, b, c, d, e, f, g, hh) := st
      let S1 := (rotr32 e 6) ^^^ (rotr32 e 11) ^^^ (rotr32 e 25)
      let ch := (e &&& f) ^^^ ((e ^^^ 4294967295) &&& g)
      let temp1 := (hh + S1 + ch + kw.1 + kw.2) % 4294967296
      let S0 := (rotr32 a 2) ^^^ (rotr32 a 13) ^^^ (rotr32 a 22)
      let maj := (a &&& b) ^^^ (a &&& c) ^^^ (b &&& c)
      let temp2 := (S0 + maj) % 4294967296
      ((temp1 + temp2) % 4294967296, a, b, c, (d + temp1) % 4294967296,
        e, f, g))
    init
  match fin with
  | (a, b, c, d, e, f, g, hh) =>
    [(h.getD 0 0 + a) % 4294967296, (h.getD 1 0 + b) % 4294967296,
     (h.getD 2 0 + c) % 4294967296, (h.getD 3 0 + d) % 4294967296,
     (h.getD 4 0 + e) % 4294967296, (h.getD 5 0 + f) % 4294967296,
     (h.getD 6 0 + g) % 4294967296, (h.getD 7 0 + hh) % 4294967296]

/-- Fold the compression over the given number of 64-byte blocks. -/
def processBlocks : Nat → List Nat → List Nat → List Nat
  | 0, h, _ => h
  | n + 1, h, bytes =>
    processBlocks n
      (compressBlock h (extendSchedule (bytesToWords (bytes.take 64))))
      (bytes.drop 64)

/-- Lower-case hex digit. -/
def hexDigit (n : Nat) : Char :=
  if n < 10 then Char.ofNat (48 + n) else Char.ofNat (87 + n)

/-- Eight lower-case hex digits of one 32-bit word. -/
def wordToHex (w : Nat) : String :=
  String.mk ((List.range 8).map (fun i => hexDigit ((w >>> (4 * (7 - i))) % 16)))

/-- The SHA-256 digest of a byte sequence, hex-encoded. -/
def sha256Hex (msg : List Nat) : String :=
  let padded := padMessage msg
  let hf := processBlocks (padded.length / 64) initH padded
  String.join (hf.map wordToHex)

/-- Modelled from the spec: `hashContent` of `src/sync/hash.ts`, which is
absent from the provided sources (only its tests are).  Spec §4.5 and §8 fix
it as the stable cryptographic digest, hex-encoded — the SHA-256 digest of
the UTF-8 content, per the digests its tests expect. -/
def hashContent (s : String) : String := sha256Hex (strBytes s)

/-- C6: `hashContent` behaves as the standard SHA-256 hex digest: identical
content hashes identically, `hello world` hashes to `b94d27b9…cde9`, and
empty input hashes to the fixed empty-input digest `e3b0c442…b855`. -/
theorem hashContent_sha256_digest (s : String) :
    hashContent s = hashContent s
    ∧ hashContent "hello world"
        = "b94d27b9934d3e08a52e52d7da7dabfac484efe37a5380ee9088f7ace2efcde9"
    ∧ hashContent ""
        = "e3b0c44298fc1c149afbf4c8996fb92427ae41e4649b934ca495991b7852b855" :=
  ⟨rfl, by decide, by decide⟩

/-- Generic key lookup in a key-unique association list (JavaScript object
field access / `Map.get`). -/
def lookupIn {α : Type} (m : List (String × α)) (k : String) : Option α :=
  (m.find? (fun kv => kv.1 == k)).map (fun kv => kv.2)

/-- One entry of the persisted manifest's `files` record (the `injections`
array is constantly empty and carries no information). -/
structure ManifestEntry where
  hash : String
  managed : Bool
deriving DecidableEq

/-- The classification of one path by the change detector. -/
inductive ChangeType where
  | added
  | removed
  | modified
  | unchanged
deriving DecidableEq

/-- One change record produced by `detectChanges`. -/
structure ChangeRecord where
  path : String
  type : ChangeType
  oldHash : Option String
  newHash : Option String
  managed : Option Bool
deriving DecidableEq

/-- Classification of one manifest entry against the disk state: present
with equal hash is `unchanged`, present with different hash is `modified`
(old hash from the manifest, new hash recomputed, managed flag carried
over), absent is `removed` (old hash only). -/
def classifyManifestEntry (disk : List (String × String))
    (pe : String × ManifestEntry) : ChangeRecord :=
  match lookupIn disk pe.1 with
  | some content =>
    let newHash := hashContent content
    if newHash = pe.2.hash then
      { path := pe.1, type := ChangeType.unchanged,
        oldHash := some pe.2.hash, newHash := some newHash,
        managed := some pe.2.managed }
    else
      { path := pe.1, type := ChangeType.modified,
        oldHash := some pe.2.hash, newHash := some newHash,
        managed := some pe.2.managed }
  | none =>
    { path := pe.1, type := ChangeType.removed,
      oldHash := some pe.2.hash, newHash := none,
      managed := some pe.2.managed }

/-- Classification of one on-disk file: a record of type `added` (new hash
only, no managed flag) when the manifest does not know the path, nothing
otherwise. -/
def classifyDiskEntry (manifestFiles : List (String × ManifestEntry))
    (pc : String × String) : Option ChangeRecord :=
  match lookupIn manifestFiles pc.1 with
  | some _ => none
  | none =>
    some { path := pc.1, type := ChangeType.added, oldHash := none,
           newHash := some (hashContent pc.2), managed := none }

/-- Modelled from the spec: `detectChanges(projectRoot, manifest)` of
`src/sync/manifest.ts`, absent from the provided sources (only its test
suite is).  Spec §4.6: walk every path of `manifest.files` against the
current disk state, then every disk path (under the fixed exclusions)
missing from the manifest.  `disk` maps each on-disk path to its content. -/
def detectChanges (manifestFiles : List (String × ManifestEntry))
    (disk : List (String × String)) : List ChangeRecord :=
  manifestFiles.map (classifyManifestEntry disk)
    ++ disk.filterMap (classifyDiskEntry manifestFiles)

theorem classifyManifestEntry_path (disk : List (String × String))
    (pe : String × ManifestEntry) :
    (classifyManifestEntry disk pe).path = pe.1 := by
  unfold classifyManifestEntry
  cases lookupIn disk pe.1 with
  | none => rfl
  | some content =>
    by_cases h : hashContent content = pe.2.hash <;> simp [h]

theorem lookupIn_eq_none_iff {α : Type} (m : List (String × α)) (k : String) :
    lookupIn m k = none ↔ k ∉ m.map Prod.fst := by
  induction m with
  | nil => simp [lookupIn]
  | cons kv tl ih =>
    by_cases hk : kv.1 = k
    · simp [lookupIn, List.find?, hk]
    · have hk' : (kv.1 == k) = false := by simpa using hk
      simp only [lookupIn, List.find?, hk', List.map_cons, List.mem_cons]
      rw [← lookupIn]
      simp [ih, Ne.symm hk]

theorem diskPart_paths (manifestFiles : List (String × ManifestEntry)) :
    ∀ disk : List (String × String),
      (disk.filterMap (classifyDiskEntry manifestFiles)).map ChangeRecord.path
        = (disk.filter
            (fun pc => (lookupIn manifestFiles pc.1).isNone)).map Prod.fst := by
  intro disk
  induction disk with
  | nil => rfl
  | cons pc tl ih =>
    cases h : lookupIn manifestFiles pc.1 with
    | some e => simp [classifyDiskEntry, h, ih]
    | none => simp [classifyDiskEntry, h, ih]

/-- C2: `detectChanges` classifies exactly the union of the manifest's file
keys and the on-disk paths — one record per path, none omitted, none
duplicated — and every record's type is `added`, `removed`, `modified` or
`unchanged`.  The key-uniqueness hypotheses hold of any real input: the
manifest's `files` is a JSON object and the disk paths enumerate a tree. -/
theorem detectChanges_partition (manifestFiles : List (String × ManifestEntry))
    (disk : List (String × String))
    (hm : (manifestFiles.map Prod.fst).Nodup)
    (hd : (disk.map Prod.fst).Nodup) :
    ((detectChanges manifestFiles disk).map ChangeRecord.path).Nodup
    ∧ (∀ p, p ∈ (detectChanges manifestFiles disk).map ChangeRecord.path
        ↔ (p ∈ manifestFiles.map Prod.fst ∨ p ∈ disk.map Prod.fst))
    ∧ ∀ r ∈ detectChanges manifestFiles disk,
        r.type = ChangeType.added ∨ r.type = ChangeType.removed
        ∨ r.type = ChangeType.modified ∨ r.type = ChangeType.unchanged := by
  have hpaths : (detectChanges manifestFiles disk).map ChangeRecord.path
      = manifestFiles.map Prod.fst
        ++ (disk.filter
            (fun pc => (lookupIn manifestFiles pc.1).isNone)).map Prod.fst := by
    unfold detectChanges
    rw [List.map_append, diskPart_paths, List.map_map]
    congr 1
    apply List.map_congr_left
    intro pe _
    exact classifyManifestEntry_path disk pe
  refine ⟨?_, ?_, ?_⟩
  · rw [hpaths, List.nodup_append]
    refine ⟨hm, ?_, ?_⟩
    · exact ((List.filter_sublist disk).map Prod.fst).nodup hd
    · intro p hp hq
      obtain ⟨pc, hpcmem, hpcfst⟩ := List.mem_map.mp hq
      have := List.of_mem_filter hpcmem
      rw [Option.isNone_iff_eq_none, lookupIn_eq_none_iff] at this
      exact this (hpcfst ▸ hp)
  · intro p
    rw [hpaths, List.mem_append]
    constructor
    · rintro (hp | hp)
      · exact Or.inl hp
      · obtain ⟨pc, hpcmem, hpcfst⟩ := List.mem_map.mp hp
        exact Or.inr (hpcfst ▸ List.mem_map_of_mem Prod.fst
          (List.mem_of_mem_filter hpcmem))
    · rintro (hp | hp)
      · exact Or.inl hp
      · by_cases hq : p ∈ manifestFiles.map Prod.fst
        · exact Or.inl hq
        · refine Or.inr ?_
          obtain ⟨pc, hpcmem, hpcfst⟩ := List.mem_map.mp hp
          rw [← hpcfst]
          refine List.mem_map_of_mem Prod.fst (List.mem_filter.mpr ⟨hpcmem, ?_⟩)
          rw [Option.isNone_iff_eq_none, lookupIn_eq_none_iff, hpcfst]
          exact hq
  · intro r _
    cases h : r.type
    · exact Or.inl rfl
    · exact Or.inr (Or.inl rfl)
    · exact Or.inr (Or.inr (Or.inl rfl))
    · exact Or.inr (Or.inr (Or.inr rfl))

/-- Witness for C2 on a small manifest and tree exercising all four
classifications. -/
theorem detectChanges_partition_witness :
    ((detectChanges
        [("removed.txt", ⟨"abc123", false⟩),
         ("unchanged.txt",
          ⟨"ed7002b439e9ac845f22357d822bac1444730fbdb6016d3ec9432297b9ec9f73",
           false⟩)]
        [("unchanged.txt", "content"), ("new.txt", "x")]).map
      ChangeRecord.path).Nodup
    ∧ (∀ p, p ∈ (detectChanges
        [("removed.txt", ⟨"abc123", false⟩),
         ("unchanged.txt",
          ⟨"ed7002b439e9ac845f22357d822bac1444730fbdb6016d3ec9432297b9ec9f73",
           false⟩)]
        [("unchanged.txt", "content"), ("new.txt", "x")]).map
          ChangeRecord.path
        ↔ (p ∈ ["removed.txt", "unchanged.txt"] ∨ p ∈ ["unchanged.txt", "new.txt"]))
    ∧ ∀ r ∈ detectChanges
        [("removed.txt", ⟨"abc123", false⟩),
         ("unchanged.txt",
          ⟨"ed7002b439e9ac845f22357d822bac1444730fbdb6016d3ec9432297b9ec9f73",
           false⟩)]
        [("unchanged.txt", "content"), ("new.txt", "x")],
        r.type = ChangeType.added ∨ r.type = ChangeType.removed
        ∨ r.type = ChangeType.modified ∨ r.type = ChangeType.unchanged :=
  detectChanges_partition
    [("removed.txt", ⟨"abc123", false⟩),
     ("unchanged.txt",
      ⟨"ed7002b439e9ac845f22357d822bac1444730fbdb6016d3ec9432297b9ec9f73",
       false⟩)]
    [("unchanged.txt", "content"), ("new.txt", "x")]
    (by decide) (by decide)
